import Mathlib

/-!
Verification development for `capa/render/__init__.py`: the result-document
converter.  The Python source is shallowly embedded below.  Python dicts with
a fixed key schema become structures with `Option` fields for optional keys;
Python dicts used as mappings become association lists; raising an exception
becomes `Except.error`; the unbounded cross-tree recursion of
`convert_match_to_result_document` is made total with an explicit fuel
parameter (fuel exhaustion is reported as a distinguished
`"RecursionError"`, every failed dictionary lookup as `"KeyError"`,
mirroring the exceptions the Python code can raise).
-/

/-- An association-list lookup, mirroring a Python dict read `d[k]` /
`k in d` (`none` corresponds to a `KeyError` on `d[k]`). -/
def alookup {κ β : Type} [DecidableEq κ] : List (κ × β) → κ → Option β
  | [], _ => none
  | (k, v) :: rest, key => if key = k then some v else alookup rest key

/-- Structured records parsed from canonical ATT&CK strings
(`parse_canonical_attack`). -/
structure AttackRec where
  parts : List String
  id : String
  tactic : String
  technique : String
  subtechnique : String
deriving DecidableEq, Repr

/-- Structured records parsed from canonical MBC strings
(`parse_canonical_mbc`). -/
structure MbcRec where
  parts : List String
  id : String
  objective : String
  behavior : String
  method : String
deriving DecidableEq, Repr

/-- Values stored in a rule's `meta` mapping: strings (e.g. `"scope"`),
lists of taxonomy strings (`"att&ck"`, `"mbc"` before normalization),
booleans (`"capa/subscope-rule"`), and the parsed taxonomy records installed
by `convert_meta_to_result_document`. -/
inductive MetaVal where
  | str (s : String)
  | strs (l : List String)
  | boolV (b : Bool)
  | attackRecs (l : List AttackRec)
  | mbcRecs (l : List MbcRec)
deriving DecidableEq, Repr

/-- Python truthiness of a `MetaVal`, as used by
`rule.meta.get("capa/subscope-rule")` in a boolean context. -/
def MetaVal.truthy : MetaVal → Bool
  | .str s => !s.isEmpty
  | .strs l => !l.isEmpty
  | .boolV b => b
  | .attackRecs l => !l.isEmpty
  | .mbcRecs l => !l.isEmpty

/-- A leaf feature of the match tree (`capa.features.Feature`): `name` is the
kind tag (`"api"`, `"number"`, `"match"`, `"regex"`, ...), `value` the
rendered value string (`get_value_str()`), plus the optional description and,
for the regex kind, the set of matched strings. -/
structure Feature where
  name : String
  value : String
  description : Option String
  rmatches : List String
deriving DecidableEq, Repr

/-- A logical statement of the match tree (`capa.engine.Statement`
subclasses).  The constructor corresponds to the Python class, whose
lower-cased name drives `convert_statement_to_result_document`. -/
inductive Stmt where
  | andS (description : Option String)
  | orS (description : Option String)
  | notS (description : Option String)
  | someS (count : Nat) (description : Option String)
  | rangeS (min max : Int) (child : Feature) (description : Option String)
  | subscopeS (scope : String) (description : Option String)
deriving DecidableEq, Repr

/-- The polymorphic node of a match-result tree: a Statement or a Feature
(the closed set dispatched on by `convert_node_to_result_document`). -/
inductive MatchNode where
  | stmt (s : Stmt)
  | feat (f : Feature)
deriving DecidableEq, Repr

/-- Test for `isinstance(result.statement, capa.features.Feature)`. -/
def MatchNode.isFeature : MatchNode → Bool
  | .feat _ => true
  | .stmt _ => false

/-- Test for `isinstance(result.statement, capa.rules.Range)`. -/
def MatchNode.isRange : MatchNode → Bool
  | .stmt (.rangeS ..) => true
  | _ => false

/-- A match-result tree node (`capa.engine.Result`): success flag, the
statement/feature node, ordered children, and the set of matched addresses.
The location set is represented by the sequence in which the Python set
enumerates its elements (CPython set iteration order is deterministic for a
fixed set but is a hash-table order, not a sorted order). -/
inductive Result where
  | mk (success : Bool) (statement : MatchNode) (children : List Result) (locations : List Int)

def Result.success : Result → Bool
  | .mk s _ _ _ => s

def Result.statement : Result → MatchNode
  | .mk _ n _ _ => n

def Result.children : Result → List Result
  | .mk _ _ c _ => c

def Result.locations : Result → List Int
  | .mk _ _ _ l => l

/-- The document sub-record produced for a feature
(`convert_feature_to_result_document`): `{"type": feature.name,
feature.name: feature.get_value_str(), "description"?, "matches"?}`.
The dynamically named value key is represented by `value` (its name always
equals `type`). -/
structure FeatDoc where
  type : String
  value : String
  description : Option String
  rmatches : Option (List String)
deriving DecidableEq, Repr

/-- The document sub-record produced for a statement
(`convert_statement_to_result_document`); absent dict keys are `none`. -/
structure StmtDoc where
  type : String
  description : Option String
  count : Option Nat
  min : Option Int
  max : Option Int
  child : Option FeatDoc
  subscope : Option MetaVal
deriving DecidableEq, Repr

/-- The `doc["node"]` value: `{"type": "statement"|"feature", ...}`. -/
inductive NodeDoc where
  | statement (s : StmtDoc)
  | feature (f : FeatDoc)
deriving DecidableEq, Repr

/-- One converted match-tree node: the dict built by
`convert_match_to_result_document` with keys `success`, `node`, `children`
and the optional `locations`. -/
inductive MatchDoc where
  | mk (success : Bool) (node : NodeDoc) (children : List MatchDoc) (locations : Option (List Int))

def MatchDoc.success : MatchDoc → Bool
  | .mk s _ _ _ => s

def MatchDoc.node : MatchDoc → NodeDoc
  | .mk _ n _ _ => n

def MatchDoc.children : MatchDoc → List MatchDoc
  | .mk _ _ c _ => c

def MatchDoc.locations : MatchDoc → Option (List Int)
  | .mk _ _ _ l => l

/-- Translation of `convert_feature_to_result_document`. -/
def convert_feature_to_result_document (f : Feature) : FeatDoc :=
  { type := f.name
    value := f.value
    description := f.description
    rmatches := if f.name = "regex" then some f.rmatches else none }

/-- Translation of `convert_statement_to_result_document`: dispatch on the
lower-cased statement class name; `some` with count 0 is re-tagged
`optional`; `range` carries min/max and its converted child feature;
`subscope` carries its scope. -/
def convert_statement_to_result_document : Stmt → StmtDoc
  | .andS d => ⟨"and", d, none, none, none, none, none⟩
  | .orS d => ⟨"or", d, none, none, none, none, none⟩
  | .notS d => ⟨"not", d, none, none, none, none, none⟩
  | .someS c d =>
    if c = 0 then ⟨"optional", d, none, none, none, none, none⟩
    else ⟨"some", d, some c, none, none, none, none⟩
  | .rangeS mn mx ch d =>
    ⟨"range", d, none, some mn, some mx, some (convert_feature_to_result_document ch), none⟩
  | .subscopeS sc d => ⟨"subscope", d, none, none, none, none, some (MetaVal.str sc)⟩

/-- Translation of `convert_node_to_result_document`: dispatch on the node's
variant (the `RuntimeError` branch is unreachable in the typed embedding,
where the {Statement, Feature} closure is enforced by the type). -/
def convert_node_to_result_document : MatchNode → NodeDoc
  | .stmt s => .statement (convert_statement_to_result_document s)
  | .feat f => .feature (convert_feature_to_result_document f)

/-- A rule of the rule set, at the interface the converter consumes:
its name, its (mutable, in Python) `meta` mapping, and its raw definition
text. -/
structure Rule where
  name : String
  meta : List (String × MetaVal)
  definition : String
deriving DecidableEq, Repr

/-- The rule set, at the interface the converter consumes: the name-to-rule
mapping and the namespace-to-rules index. -/
structure RuleSet where
  rules : List (String × Rule)
  rules_by_namespace : List (String × List Rule)
deriving DecidableEq, Repr

/-- The capabilities mapping: rule name to the ordered (address, Result)
pairs at which the rule matched. -/
def Capabilities : Type := List (String × List (Int × Result))

/-- Truthiness of `rule.meta.get("capa/subscope-rule")`. -/
def isSubscopeRule (r : Rule) : Bool :=
  match alookup r.meta "capa/subscope-rule" with
  | some v => v.truthy
  | none => false

/-- The dict comprehension `{address: result for (address, result) in
capabilities[rule_name]}`: later pairs overwrite earlier ones, so lookup
finds the last binding. -/
def ruleMatchesIndex (pairs : List (Int × Result)) (a : Int) : Option Result :=
  alookup pairs.reverse a

/-- The condition `doc["node"]["type"] == "feature" and
doc["node"]["feature"]["type"] == "match"`. -/
def isMatchFeature : NodeDoc → Bool
  | .feature fd => fd.type == "match"
  | .statement _ => false

/-- The referenced name `doc["node"]["feature"]["match"]` (the feature's
rendered value). -/
def matchNameOf : NodeDoc → String
  | .feature fd => fd.value
  | .statement _ => ""

/-- The optional `doc["locations"]` entry: attached only to feature nodes
and `range` statement nodes, and only on success (source lines 118-125). -/
def locationsField (r : Result) : Option (List Int) :=
  if r.statement.isFeature then (if r.success then some r.locations else none)
  else if r.statement.isRange then (if r.success then some r.locations else none)
  else none

/-- An exception-propagating map, as a Python `for`/comprehension over a
fallible body behaves: the first raised exception aborts the whole loop. -/
def mapME {α β : Type} (f : α → Except String β) : List α → Except String (List β)
  | [] => .ok []
  | x :: xs =>
    match f x with
    | .error e => .error e
    | .ok y =>
      match mapME f xs with
      | .error e => .error e
      | .ok ys => .ok (y :: ys)

/-- Splicing a single referenced address:
`convert_match_to_result_document(rules, capabilities, rule_matches[location])`
(the unguarded index raises `KeyError` when the address has no entry). -/
def spliceOne (recur : Result → Except String MatchDoc)
    (pairs : List (Int × Result)) (a : Int) : Except String MatchDoc :=
  match ruleMatchesIndex pairs a with
  | none => .error "KeyError"
  | some res => recur res

/-- The subscope fixup (source lines 153-164): for a subscope rule the node
is rewritten into a `subscope` statement node carrying `rule.meta["scope"]`
(an unguarded dict read). -/
def subscopeFixup (rule : Rule) (node : NodeDoc) : Except String NodeDoc :=
  if isSubscopeRule rule then
    match alookup rule.meta "scope" with
    | none => .error "KeyError"
    | some scope => .ok (NodeDoc.statement ⟨"subscope", none, none, none, none, none, some scope⟩)
  else .ok node

/-- One unfolding of `convert_match_to_result_document`, with the recursive
occurrences abstracted as `recur`: convert the node and the children, attach
`locations` per `locationsField`, and for a successful `match` feature
splice in the referenced rule's (or namespace's rules') match trees at the
node's locations, appending them after the converted children. -/
def convertMatchStep (rs : RuleSet) (caps : Capabilities)
    (recur : Result → Except String MatchDoc) (r : Result) : Except String MatchDoc :=
  match mapME recur r.children with
  | .error e => .error e
  | .ok conv =>
    if isMatchFeature (convert_node_to_result_document r.statement) && r.success then
      match alookup rs.rules (matchNameOf (convert_node_to_result_document r.statement)) with
      | some rule =>
        match alookup caps (matchNameOf (convert_node_to_result_document r.statement)) with
        | none => .error "KeyError"
        | some pairs =>
          match subscopeFixup rule (convert_node_to_result_document r.statement) with
          | .error e => .error e
          | .ok node2 =>
            match locationsField r with
            | none => .error "KeyError"
            | some locs =>
              match mapME (spliceOne recur pairs) locs with
              | .error e => .error e
              | .ok spliced =>
                .ok (MatchDoc.mk r.success node2 (conv ++ spliced) (locationsField r))
      | none =>
        match alookup rs.rules_by_namespace (matchNameOf (convert_node_to_result_document r.statement)) with
        | none => .error "KeyError"
        | some nsRules =>
          match mapME (fun rule =>
              match alookup caps rule.name with
              | none => .ok ([] : List MatchDoc)
              | some pairs =>
                match locationsField r with
                | none => .error "KeyError"
                | some locs => mapME (spliceOne recur pairs) locs) nsRules with
          | .error e => .error e
          | .ok groups =>
            .ok (MatchDoc.mk r.success (convert_node_to_result_document r.statement)
                  (conv ++ groups.flatten) (locationsField r))
    else
      .ok (MatchDoc.mk r.success (convert_node_to_result_document r.statement) conv
            (locationsField r))

/-- Translation of `convert_match_to_result_document`.  The Python function
recurses both structurally (children) and across trees (splicing); the fuel
parameter makes the Lean translation total, decrementing on every recursive
call and reporting exhaustion as `"RecursionError"`. -/
def convert_match_to_result_document (rs : RuleSet) (caps : Capabilities) :
    Nat → Result → Except String MatchDoc
  | 0, _ => .error "RecursionError"
  | fuel+1, r => convertMatchStep rs caps (convert_match_to_result_document rs caps fuel) r

/-- Modelled from the spec: `capa.render.utils.parse_parts_id` is not part
of the source under review (only its callers are).  Per the spec the
canonical taxonomy string is `Seg1[::Seg2[::Seg3]] [ID]`: double-colon
delimited segments followed by an optional trailing space-separated
bracketed identifier; the identifier defaults to the empty string when
absent, and malformed input degrades gracefully instead of failing. -/
def parse_parts_id (s : String) : List String × String :=
  let pieces := s.splitOn " ["
  let bodyId : String × String :=
    if s.endsWith "]" ∧ 2 ≤ pieces.length then
      (String.intercalate " [" pieces.dropLast, (pieces.getLastD "").dropRight 1)
    else (s, "")
  (if bodyId.1 = "" then [] else bodyId.1.splitOn "::", bodyId.2)

/-- Translation of `parse_canonical_attack`: the three named fields are
bound positionally to the parts, each defaulting to the empty string when
its position is absent. -/
def parse_canonical_attack (attack : String) : AttackRec :=
  let pi := parse_parts_id attack
  { parts := pi.1
    id := pi.2
    tactic := match pi.1 with | p0 :: _ => p0 | [] => ""
    technique := match pi.1 with | _ :: p1 :: _ => p1 | _ => ""
    subtechnique := match pi.1 with | _ :: _ :: p2 :: _ => p2 | _ => "" }

/-- Translation of `parse_canonical_mbc`: identical structure with the
objective/behavior/method naming. -/
def parse_canonical_mbc (mbc : String) : MbcRec :=
  let pi := parse_parts_id mbc
  { parts := pi.1
    id := pi.2
    objective := match pi.1 with | p0 :: _ => p0 | [] => ""
    behavior := match pi.1 with | _ :: p1 :: _ => p1 | _ => ""
    method := match pi.1 with | _ :: _ :: p2 :: _ => p2 | _ => "" }

/-- A Python dict assignment `d[k] = v`: replace the binding in place when
the key exists, append a new binding otherwise. -/
def setMeta : List (String × MetaVal) → String → MetaVal → List (String × MetaVal)
  | [], k, v => [(k, v)]
  | (k', v') :: rest, k, v =>
    if k' = k then (k, v) :: rest else (k', v') :: setMeta rest k v

/-- The read `meta.get(key, [])` for the two taxonomy keys, whose values in
capa rule metadata are lists of canonical taxonomy strings. -/
def metaGetStrs (m : List (String × MetaVal)) (k : String) : List String :=
  match alookup m k with
  | some (.strs l) => l
  | _ => []

/-- Translation of `convert_meta_to_result_document`: rewrite the `att&ck`
list, then the `mbc` list, in the (shared, in Python) meta mapping, and
return that same mapping. -/
def convert_meta_to_result_document (meta : List (String × MetaVal)) :
    List (String × MetaVal) :=
  let attacks := metaGetStrs meta "att&ck"
  let meta1 := setMeta meta "att&ck" (.attackRecs (attacks.map parse_canonical_attack))
  let mbcs := metaGetStrs meta1 "mbc"
  setMeta meta1 "mbc" (.mbcRecs (mbcs.map parse_canonical_mbc))

/-- One entry of the output document's `rules` mapping:
`{"meta": ..., "source": rule.definition, "matches": {addr: ...}}`. -/
structure RuleEntry where
  meta : List (String × MetaVal)
  source : String
  rmatches : List (Int × MatchDoc)

/-- The assembled result document `{"meta": ..., "rules": {...}}`. -/
structure ResultDoc where
  meta : List (String × MetaVal)
  rules : List (String × RuleEntry)

/-- The loop body of `convert_capabilities_to_result_document` over
`capabilities.items()`: skip subscope rules, otherwise normalize the rule's
metadata and convert every match; `rules[rule_name]` on a name missing from
the rule set raises `KeyError`. -/
def buildRuleEntries (rs : RuleSet) (caps : Capabilities) (fuel : Nat) :
    List (String × List (Int × Result)) → Except String (List (String × RuleEntry))
  | [] => .ok []
  | (rule_name, ms) :: rest =>
    match alookup rs.rules rule_name with
    | none => .error "KeyError"
    | some rule =>
      if isSubscopeRule rule then buildRuleEntries rs caps fuel rest
      else
        match mapME (fun p =>
            match convert_match_to_result_document rs caps fuel p.2 with
            | .error e => .error e
            | .ok d => .ok (p.1, d)) ms with
        | .error e => .error e
        | .ok converted =>
          match buildRuleEntries rs caps fuel rest with
          | .error e => .error e
          | .ok rest' =>
            .ok ((rule_name,
                  { meta := convert_meta_to_result_document rule.meta
                    source := rule.definition
                    rmatches := converted }) :: rest')

/-- Translation of `convert_capabilities_to_result_document`: the global
metadata plus the per-rule entries built from Capabilities. -/
def convert_capabilities_to_result_document (gmeta : List (String × MetaVal))
    (rs : RuleSet) (caps : Capabilities) (fuel : Nat) : Except String ResultDoc :=
  match buildRuleEntries rs caps fuel caps with
  | .error e => .error e
  | .ok entries => .ok { meta := gmeta, rules := entries }
/-- A JSON-encodable Python value as handed to `json.dumps(...,
cls=CapaJsonObjectEncoder, sort_keys=True)`. -/
inductive JVal where
  | jnull
  | jbool (b : Bool)
  | jint (n : Int)
  | jstr (s : String)
  | jarr (xs : List JVal)
  | jobj (kvs : List (String × JVal))
  | jiset (xs : List Int)
  | jsset (xs : List String)
  | junsupported
deriving Repr

def jquote (s : String) : String := "\"" ++ s ++ "\""

def joinComma (ss : List String) : String := String.intercalate "," ss

def sortInts (xs : List Int) : List Int := List.insertionSort (· ≤ ·) xs

def sortStrs (xs : List String) : List String := List.insertionSort (· ≤ ·) xs

def sortKV (ps : List (String × String)) : List (String × String) :=
  List.insertionSort (fun a b => a.1 ≤ b.1) ps

mutual
def capaJsonEncode : JVal → Except String String
  | .jnull => .ok "null"
  | .jbool b => .ok (if b then "true" else "false")
  | .jint n => .ok (toString n)
  | .jstr s => .ok (jquote s)
  | .jarr xs =>
    match encodeJList xs with
    | .error e => .error e
    | .ok ss => .ok ("[" ++ joinComma ss ++ "]")
  | .jobj kvs =>
    match encodeJKVs kvs with
    | .error e => .error e
    | .ok ps =>
      .ok ("\x7b" ++ joinComma ((sortKV ps).map (fun p => jquote p.1 ++ ":" ++ p.2)) ++ "\x7d")
  | .jiset xs => .ok ("[" ++ joinComma ((sortInts xs).map toString) ++ "]")
  | .jsset xs => .ok ("[" ++ joinComma ((sortStrs xs).map jquote) ++ "]")
  | .junsupported => .error "TypeError"

def encodeJList : List JVal → Except String (List String)
  | [] => .ok []
  | x :: xs =>
    match capaJsonEncode x with
    | .error e => .error e
    | .ok s =>
      match encodeJList xs with
      | .error e => .error e
      | .ok ss => .ok (s :: ss)

def encodeJKVs : List (String × JVal) → Except String (List (String × String))
  | [] => .ok []
  | (k, v) :: ps =>
    match capaJsonEncode v with
    | .error e => .error e
    | .ok s =>
      match encodeJKVs ps with
      | .error e => .error e
      | .ok ss => .ok ((k, s) :: ss)
end
/-- Concrete rule set and trees exercising the subscope-rewrite path
(rule `B` is a subscope rule with scope `basic block`). -/
def fBW : Feature := ⟨"match", "B", none, []⟩

def rAW : Result := .mk true (.feat fBW) [] [16]

def ruleBW : Rule :=
  ⟨"B", [("capa/subscope-rule", .boolV true), ("scope", .str "basic block")], "rule: B"⟩

def rsW1 : RuleSet := ⟨[("B", ruleBW)], []⟩

def resBW : Result := .mk true (.feat ⟨"api", "CreateFile", none, []⟩) [] [16]

def capsW1 : Capabilities := [("B", [(16, resBW)])]

def docW1 : MatchDoc :=
  .mk true (.statement ⟨"subscope", none, none, none, none, none, some (.str "basic block")⟩)
    [.mk true (.feature ⟨"api", "CreateFile", none, none⟩) [] (some [16])] (some [16])

/-- Concrete rule set with an ordinary (non-subscope) rule `R` captured only
at address 1, and trees referencing it. -/
def ruleRW : Rule := ⟨"R", [], "rule: R"⟩

def rsW2 : RuleSet := ⟨[("R", ruleRW)], []⟩

def res1W : Result := .mk true (.feat ⟨"api", "X1", none, []⟩) [] [1]

def capsW2 : Capabilities := [("R", [(1, res1W)])]

def rW2 : Result := .mk true (.feat ⟨"match", "R", none, []⟩) [] [1, 2]

def rW3 : Result := .mk true (.feat ⟨"match", "nope", none, []⟩) [] [5]

def rW4 : Result := .mk true (.feat ⟨"api", "X", none, []⟩) [] [7]

def docW4 : MatchDoc := .mk true (.feature ⟨"api", "X", none, none⟩) [] (some [7])

def res8W : Result := .mk true (.feat ⟨"api", "X8", none, []⟩) [] [8]

def capsW5 : Capabilities := [("R", [(8, res8W), (1, res1W)])]

/-- A reference to `R` whose location set enumerates as `[8, 1]` (the
CPython iteration order of the set containing 1 and 8). -/
def rW5 : Result := .mk true (.feat ⟨"match", "R", none, []⟩) [] [8, 1]

def docW5 : MatchDoc :=
  .mk true (.feature ⟨"match", "R", none, none⟩)
    [.mk true (.feature ⟨"api", "X8", none, none⟩) [] (some [8]),
     .mk true (.feature ⟨"api", "X1", none, none⟩) [] (some [1])] (some [8, 1])

def capsW10 : Capabilities := []

-- helper lemmas

/-- Concrete rule set with an ordinary rule `N` and a subscope rule `S`,
both captured in Capabilities. -/
def ruleNW : Rule := ⟨"N", [("author", .str "x")], "rule: N"⟩

def ruleSW : Rule :=
  ⟨"S", [("capa/subscope-rule", .boolV true), ("scope", .str "basic block")], "rule: S"⟩

def rsW6 : RuleSet := ⟨[("N", ruleNW), ("S", ruleSW)], []⟩

def resNW : Result := .mk true (.feat ⟨"api", "Sleep", none, []⟩) [] [2]

def resSW : Result := .mk true (.feat ⟨"api", "VirtualAlloc", none, []⟩) [] [4]

def capsW6 : Capabilities := [("N", [(2, resNW)]), ("S", [(4, resSW)])]

def gmetaW : List (String × MetaVal) := [("sample", .str "test.exe")]

def entryW9 : RuleEntry :=
  ⟨[("author", .str "x"), ("att&ck", .attackRecs []), ("mbc", .mbcRecs [])], "rule: N",
   [(2, .mk true (.feature ⟨"api", "Sleep", none, none⟩) [] (some [2]))]⟩

def docW6 : ResultDoc := ⟨gmetaW, [("N", entryW9)]⟩

/-- Extract the payload of a successful encoding (used only to state the
map form of `encodeJKVs`). -/
def getOk : Except String String → String
  | .ok s => s
  | .error _ => ""

mutual
/-- Two encodable values that denote the same Python document, differing
only in the iteration order of unordered collections: sets may be
enumerated in any order, and an object's key-value pairs (with distinct
keys, as in a Python dict) may be listed in any order.  Arrays are ordered
and must agree pointwise. -/
inductive JEquiv : JVal → JVal → Prop
  | null : JEquiv .jnull .jnull
  | bool (b : Bool) : JEquiv (.jbool b) (.jbool b)
  | int (n : Int) : JEquiv (.jint n) (.jint n)
  | str (s : String) : JEquiv (.jstr s) (.jstr s)
  | arr {xs ys : List JVal} : JEquivL xs ys → JEquiv (.jarr xs) (.jarr ys)
  | obj {kvs mid kvs' : List (String × JVal)} : JEquivKV kvs mid → mid.Perm kvs' →
      (kvs.map Prod.fst).Nodup → JEquiv (.jobj kvs) (.jobj kvs')
  | iset {xs ys : List Int} : xs.Perm ys → JEquiv (.jiset xs) (.jiset ys)
  | sset {xs ys : List String} : xs.Perm ys → JEquiv (.jsset xs) (.jsset ys)
  | unsupported : JEquiv .junsupported .junsupported

/-- Pointwise equivalence of ordered arrays. -/
inductive JEquivL : List JVal → List JVal → Prop
  | nil : JEquivL [] []
  | cons {x y : JVal} {xs ys : List JVal} : JEquiv x y → JEquivL xs ys →
      JEquivL (x :: xs) (y :: ys)

/-- Pointwise equivalence of key-value lists: identical keys in identical
positions, equivalent values. -/
inductive JEquivKV : List (String × JVal) → List (String × JVal) → Prop
  | nil : JEquivKV [] []
  | cons (k : String) {v w : JVal} {ps qs : List (String × JVal)} : JEquiv v w →
      JEquivKV ps qs → JEquivKV ((k, v) :: ps) ((k, w) :: qs)
end

theorem mapME_ok_mem {α β : Type} {f : α → Except String β} {l : List α} {ys : List β}
    (h : mapME f l = .ok ys) {x : α} (hx : x ∈ l) : ∃ y, f x = .ok y := by
  induction l generalizing ys with
  | nil => cases hx
  | cons a as ih =>
    rw [mapME] at h
    cases hfa : f a with
    | error e => rw [hfa] at h; cases h
    | ok y =>
      rw [hfa] at h
      cases hrest : mapME f as with
      | error e => rw [hrest] at h; cases h
      | ok ys' =>
        cases hx with
        | head => exact ⟨y, hfa⟩
        | tail _ hmem => exact ih hrest hmem

theorem convertMatchStep_ok_locations (rs : RuleSet) (caps : Capabilities)
    (recur : Result → Except String MatchDoc) (r : Result) (doc : MatchDoc)
    (h : convertMatchStep rs caps recur r = .ok doc) : doc.locations = locationsField r := by
  unfold convertMatchStep at h
  repeat' split at h
  all_goals simp_all [MatchDoc.locations]
  all_goals (subst h; rfl)

theorem convert_match_ok_locations (rs : RuleSet) (caps : Capabilities) (fuel : Nat)
    (r : Result) (doc : MatchDoc)
    (h : convert_match_to_result_document rs caps fuel r = .ok doc) :
    doc.locations = locationsField r := by
  cases fuel with
  | zero => rw [convert_match_to_result_document] at h; cases h
  | succ n =>
    rw [convert_match_to_result_document] at h
    exact convertMatchStep_ok_locations _ _ _ _ _ h
theorem convertMatchStep_rule_branch (rs : RuleSet) (caps : Capabilities)
    (recur : Result → Except String MatchDoc) (r : Result) (f : Feature)
    (rule : Rule) (pairs : List (Int × Result))
    (hs : r.statement = .feat f) (hm : f.name = "match") (hsc : r.success = true)
    (hr : alookup rs.rules f.value = some rule)
    (hc : alookup caps f.value = some pairs) :
    convertMatchStep rs caps recur r =
      match mapME recur r.children with
      | .error e => .error e
      | .ok conv =>
        match subscopeFixup rule (convert_node_to_result_document r.statement) with
        | .error e => .error e
        | .ok node2 =>
          match mapME (spliceOne recur pairs) r.locations with
          | .error e => .error e
          | .ok spliced =>
            .ok (MatchDoc.mk true node2 (conv ++ spliced) (some r.locations)) := by
  have hnode : convert_node_to_result_document r.statement
      = .feature (convert_feature_to_result_document f) := by rw [hs]; rfl
  have hmf : isMatchFeature (convert_node_to_result_document r.statement) = true := by
    rw [hnode]; simp [isMatchFeature, convert_feature_to_result_document, hm]
  have hname : matchNameOf (convert_node_to_result_document r.statement) = f.value := by
    rw [hnode]; simp [matchNameOf, convert_feature_to_result_document]
  have hlocs : locationsField r = some r.locations := by
    simp [locationsField, hs, MatchNode.isFeature, hsc]
  unfold convertMatchStep
  rw [hmf, hsc, hname, hr, hc, hlocs]
  simp only [Bool.and_self, if_true]
theorem convertMatchStep_ns_branch (rs : RuleSet) (caps : Capabilities)
    (recur : Result → Except String MatchDoc) (r : Result) (f : Feature)
    (hs : r.statement = .feat f) (hm : f.name = "match") (hsc : r.success = true)
    (hr : alookup rs.rules f.value = none) :
    convertMatchStep rs caps recur r =
      match mapME recur r.children with
      | .error e => .error e
      | .ok conv =>
        match alookup rs.rules_by_namespace f.value with
        | none => .error "KeyError"
        | some nsRules =>
          match mapME (fun rule =>
              match alookup caps rule.name with
              | none => .ok ([] : List MatchDoc)
              | some pairs =>
                match locationsField r with
                | none => .error "KeyError"
                | some locs => mapME (spliceOne recur pairs) locs) nsRules with
          | .error e => .error e
          | .ok groups =>
            .ok (MatchDoc.mk true (convert_node_to_result_document r.statement)
                  (conv ++ groups.flatten) (locationsField r)) := by
  have hnode : convert_node_to_result_document r.statement
      = .feature (convert_feature_to_result_document f) := by rw [hs]; rfl
  have hmf : isMatchFeature (convert_node_to_result_document r.statement) = true := by
    rw [hnode]; simp [isMatchFeature, convert_feature_to_result_document, hm]
  have hname : matchNameOf (convert_node_to_result_document r.statement) = f.value := by
    rw [hnode]; simp [matchNameOf, convert_feature_to_result_document]
  unfold convertMatchStep
  rw [hmf, hsc, hname, hr]
  simp only [Bool.and_self, if_true]
/-- C1: for a successful `match` feature node referencing a subscope rule,
the converter replaces the node's feature record with a `subscope` statement
record carrying the rule's declared scope, appends the spliced match tree of
the referenced rule at each address of the node's location set after the
converted children, and the original match feature no longer appears as the
node. -/
theorem c1_subscope_rewrite (rs : RuleSet) (caps : Capabilities) (fuel : Nat)
    (r : Result) (f : Feature) (rule : Rule) (pairs : List (Int × Result))
    (scope : MetaVal) (doc : MatchDoc)
    (hs : r.statement = .feat f) (hm : f.name = "match") (hsc : r.success = true)
    (hr : alookup rs.rules f.value = some rule)
    (hsub : isSubscopeRule rule = true)
    (hscope : alookup rule.meta "scope" = some scope)
    (hc : alookup caps f.value = some pairs)
    (h : convert_match_to_result_document rs caps (fuel+1) r = .ok doc) :
    doc.node = NodeDoc.statement ⟨"subscope", none, none, none, none, none, some scope⟩ ∧
    (∀ fd : FeatDoc, doc.node ≠ NodeDoc.feature fd) ∧
    doc.success = true ∧
    doc.locations = some r.locations ∧
    ∃ conv spliced,
      mapME (convert_match_to_result_document rs caps fuel) r.children = .ok conv ∧
      mapME (spliceOne (convert_match_to_result_document rs caps fuel) pairs) r.locations
        = .ok spliced ∧
      doc.children = conv ++ spliced := by
  rw [convert_match_to_result_document] at h
  rw [convertMatchStep_rule_branch rs caps _ r f rule pairs hs hm hsc hr hc] at h
  have hfix : subscopeFixup rule (convert_node_to_result_document r.statement)
      = .ok (NodeDoc.statement ⟨"subscope", none, none, none, none, none, some scope⟩) := by
    simp [subscopeFixup, hsub, hscope]
  rw [hfix] at h
  cases hconv : mapME (convert_match_to_result_document rs caps fuel) r.children with
  | error e => rw [hconv] at h; cases h
  | ok conv =>
    rw [hconv] at h
    cases hspl : mapME (spliceOne (convert_match_to_result_document rs caps fuel) pairs)
        r.locations with
    | error e => rw [hspl] at h; cases h
    | ok spliced =>
      rw [hspl] at h
      injection h with h
      subst h
      refine ⟨rfl, ?_, rfl, rfl, conv, spliced, rfl, rfl, rfl⟩
      intro fd hcon
      exact NodeDoc.noConfusion hcon
theorem convertMatchStep_rule_nocaps (rs : RuleSet) (caps : Capabilities)
    (recur : Result → Except String MatchDoc) (r : Result) (f : Feature) (rule : Rule)
    (hs : r.statement = .feat f) (hm : f.name = "match") (hsc : r.success = true)
    (hr : alookup rs.rules f.value = some rule)
    (hc : alookup caps f.value = none) :
    convertMatchStep rs caps recur r =
      match mapME recur r.children with
      | .error e => .error e
      | .ok _ => .error "KeyError" := by
  have hnode : convert_node_to_result_document r.statement
      = .feature (convert_feature_to_result_document f) := by rw [hs]; rfl
  have hmf : isMatchFeature (convert_node_to_result_document r.statement) = true := by
    rw [hnode]; simp [isMatchFeature, convert_feature_to_result_document, hm]
  have hname : matchNameOf (convert_node_to_result_document r.statement) = f.value := by
    rw [hnode]; simp [matchNameOf, convert_feature_to_result_document]
  unfold convertMatchStep
  rw [hmf, hsc, hname, hr, hc]
  simp only [Bool.and_self, if_true]

/-- C2 amended: when some address in a successful match-feature node's
location set has no entry in the referenced rule's address-to-MatchResult
index, the conversion raises (the unguarded `rule_matches[location]` read),
rather than skipping the address. -/
theorem c2_missing_location_fails (rs : RuleSet) (caps : Capabilities) (fuel : Nat)
    (r : Result) (f : Feature) (rule : Rule) (pairs : List (Int × Result)) (a : Int)
    (hs : r.statement = .feat f) (hm : f.name = "match") (hsc : r.success = true)
    (hr : alookup rs.rules f.value = some rule)
    (hc : alookup caps f.value = some pairs)
    (ha : a ∈ r.locations) (hmiss : ruleMatchesIndex pairs a = none) :
    ∃ e, convert_match_to_result_document rs caps fuel r = .error e := by
  cases fuel with
  | zero => exact ⟨"RecursionError", rfl⟩
  | succ n =>
    rw [convert_match_to_result_document,
        convertMatchStep_rule_branch rs caps _ r f rule pairs hs hm hsc hr hc]
    cases hconv : mapME (convert_match_to_result_document rs caps n) r.children with
    | error e => exact ⟨e, rfl⟩
    | ok conv =>
      cases hfix : subscopeFixup rule (convert_node_to_result_document r.statement) with
      | error e => exact ⟨e, rfl⟩
      | ok node2 =>
        cases hspl : mapME (spliceOne (convert_match_to_result_document rs caps n) pairs)
            r.locations with
        | error e => exact ⟨e, rfl⟩
        | ok spliced =>
          exfalso
          obtain ⟨y, hy⟩ := mapME_ok_mem hspl ha
          rw [spliceOne, hmiss] at hy
          cases hy

/-- C3 amended: a successful match-feature node whose referenced name is
neither a rule nor a namespace makes the conversion raise (the unguarded
`rules.rules_by_namespace[ns_name]` read), rather than passing the node
through unspliced. -/
theorem c3_unknown_name_fails (rs : RuleSet) (caps : Capabilities) (fuel : Nat)
    (r : Result) (f : Feature)
    (hs : r.statement = .feat f) (hm : f.name = "match") (hsc : r.success = true)
    (hr : alookup rs.rules f.value = none)
    (hns : alookup rs.rules_by_namespace f.value = none) :
    ∃ e, convert_match_to_result_document rs caps fuel r = .error e := by
  cases fuel with
  | zero => exact ⟨"RecursionError", rfl⟩
  | succ n =>
    rw [convert_match_to_result_document,
        convertMatchStep_ns_branch rs caps _ r f hs hm hsc hr]
    cases hconv : mapME (convert_match_to_result_document rs caps n) r.children with
    | error e => exact ⟨e, rfl⟩
    | ok conv => exact ⟨"KeyError", by rw [hns]⟩

/-- C10: a successful match-feature node referencing a rule that is in the
rule index but absent from Capabilities makes the conversion raise (the
unguarded `capabilities[rule_name]` read) rather than emitting the node
unspliced. -/
theorem c10_missing_capability_fails (rs : RuleSet) (caps : Capabilities) (fuel : Nat)
    (r : Result) (f : Feature) (rule : Rule)
    (hs : r.statement = .feat f) (hm : f.name = "match") (hsc : r.success = true)
    (hr : alookup rs.rules f.value = some rule)
    (hc : alookup caps f.value = none) :
    ∃ e, convert_match_to_result_document rs caps fuel r = .error e := by
  cases fuel with
  | zero => exact ⟨"RecursionError", rfl⟩
  | succ n =>
    rw [convert_match_to_result_document,
        convertMatchStep_rule_nocaps rs caps _ r f rule hs hm hsc hr hc]
    cases hconv : mapME (convert_match_to_result_document rs caps n) r.children with
    | error e => exact ⟨e, rfl⟩
    | ok conv => exact ⟨"KeyError", rfl⟩
/-- C5 amended: spliced children are appended after all children converted
from the input tree, one per address in the enumeration order of the node's
location set (deterministic for a fixed enumeration, since the converter is
a pure function, but not necessarily address-ascending). -/
theorem c5_splice_order (rs : RuleSet) (caps : Capabilities) (fuel : Nat)
    (r : Result) (f : Feature) (rule : Rule) (pairs : List (Int × Result)) (doc : MatchDoc)
    (hs : r.statement = .feat f) (hm : f.name = "match") (hsc : r.success = true)
    (hr : alookup rs.rules f.value = some rule)
    (hc : alookup caps f.value = some pairs)
    (hnsub : isSubscopeRule rule = false)
    (h : convert_match_to_result_document rs caps (fuel+1) r = .ok doc) :
    ∃ conv spliced,
      mapME (convert_match_to_result_document rs caps fuel) r.children = .ok conv ∧
      mapME (spliceOne (convert_match_to_result_document rs caps fuel) pairs) r.locations
        = .ok spliced ∧
      doc.children = conv ++ spliced := by
  rw [convert_match_to_result_document] at h
  rw [convertMatchStep_rule_branch rs caps _ r f rule pairs hs hm hsc hr hc] at h
  have hfix : subscopeFixup rule (convert_node_to_result_document r.statement)
      = .ok (convert_node_to_result_document r.statement) := by
    simp [subscopeFixup, hnsub]
  rw [hfix] at h
  cases hconv : mapME (convert_match_to_result_document rs caps fuel) r.children with
  | error e => rw [hconv] at h; cases h
  | ok conv =>
    rw [hconv] at h
    cases hspl : mapME (spliceOne (convert_match_to_result_document rs caps fuel) pairs)
        r.locations with
    | error e => rw [hspl] at h; cases h
    | ok spliced =>
      rw [hspl] at h
      injection h with h
      subst h
      exact ⟨conv, spliced, rfl, rfl, rfl⟩

/-- C4: a converted document node carries the `locations` key exactly when
the input node's statement is a Feature or a `range` Statement and the node
succeeded; connective statements and failed nodes carry none. -/
theorem c4_locations_key (rs : RuleSet) (caps : Capabilities) (fuel : Nat) (r : Result)
    (doc : MatchDoc) (h : convert_match_to_result_document rs caps fuel r = .ok doc) :
    doc.locations.isSome = true ↔
      ((r.statement.isFeature = true ∨ r.statement.isRange = true) ∧ r.success = true) := by
  rw [convert_match_ok_locations rs caps fuel r doc h]
  unfold locationsField
  cases hf : r.statement.isFeature <;> cases hr : r.statement.isRange <;>
    cases hs : r.success <;> simp
/-- C1 witness: the subscope rewrite, evaluated on the concrete rule `B`
(scope `basic block`) matched at address 16. -/
theorem c1_subscope_rewrite_witness :
    docW1.node = NodeDoc.statement ⟨"subscope", none, none, none, none, none,
        some (MetaVal.str "basic block")⟩ ∧
    (∀ fd : FeatDoc, docW1.node ≠ NodeDoc.feature fd) ∧
    docW1.success = true ∧
    docW1.locations = some rAW.locations ∧
    ∃ conv spliced,
      mapME (convert_match_to_result_document rsW1 capsW1 1) rAW.children = .ok conv ∧
      mapME (spliceOne (convert_match_to_result_document rsW1 capsW1 1) [(16, resBW)])
        rAW.locations = .ok spliced ∧
      docW1.children = conv ++ spliced :=
  c1_subscope_rewrite rsW1 capsW1 1 rAW fBW ruleBW [(16, resBW)] (.str "basic block") docW1
    rfl rfl rfl rfl rfl rfl rfl rfl

/-- C2 counterexample: address 2 is listed in the node's location set but
has no entry in rule `R`'s address index, and the conversion raises
`KeyError` instead of skipping the address. -/
theorem c2_counterexample :
    ruleMatchesIndex [(1, res1W)] 2 = none ∧
    convert_match_to_result_document rsW2 capsW2 3 rW2 = .error "KeyError" := ⟨rfl, rfl⟩

/-- C2 witness for the amended claim, at the concrete missing address 2. -/
theorem c2_missing_location_fails_witness :
    ∃ e, convert_match_to_result_document rsW2 capsW2 3 rW2 = .error e :=
  c2_missing_location_fails rsW2 capsW2 3 rW2 ⟨"match", "R", none, []⟩ ruleRW [(1, res1W)] 2
    rfl rfl rfl rfl rfl (by decide) rfl

/-- C3 counterexample: the name `nope` is in neither the rule index nor
the namespace index, and the conversion raises `KeyError` instead of
emitting the feature node as-is. -/
theorem c3_counterexample :
    alookup rsW2.rules "nope" = none ∧
    alookup rsW2.rules_by_namespace "nope" = none ∧
    convert_match_to_result_document rsW2 capsW2 3 rW3 = .error "KeyError" := ⟨rfl, rfl, rfl⟩

/-- C3 witness for the amended claim, at the concrete unknown name
`nope`. -/
theorem c3_unknown_name_fails_witness :
    ∃ e, convert_match_to_result_document rsW2 capsW2 3 rW3 = .error e :=
  c3_unknown_name_fails rsW2 capsW2 3 rW3 ⟨"match", "nope", none, []⟩ rfl rfl rfl rfl rfl

/-- C4 witness: a successful feature node carries its location set. -/
theorem c4_locations_key_witness :
    docW4.locations.isSome = true ↔
      ((rW4.statement.isFeature = true ∨ rW4.statement.isRange = true) ∧ rW4.success = true) :=
  c4_locations_key rsW2 capsW2 1 rW4 docW4 rfl

/-- C5 counterexample: with the location set enumerating as `[8, 1]`, the
spliced children appear in that enumeration order — the child spliced at
address 8 precedes the one at address 1 — not in address-ascending
order. -/
theorem c5_counterexample :
    Except.map (fun d => (d.locations, d.children.map MatchDoc.node))
        (convert_match_to_result_document rsW2 capsW5 3 rW5) =
      .ok (some [8, 1],
        [NodeDoc.feature ⟨"api", "X8", none, none⟩, NodeDoc.feature ⟨"api", "X1", none, none⟩]) ∧
    NodeDoc.feature ⟨"api", "X8", none, none⟩ ≠ NodeDoc.feature ⟨"api", "X1", none, none⟩ :=
  ⟨rfl, by decide⟩

/-- C5 witness for the amended claim, on the concrete location
enumeration `[8, 1]`. -/
theorem c5_splice_order_witness :
    ∃ conv spliced,
      mapME (convert_match_to_result_document rsW2 capsW5 2) rW5.children = .ok conv ∧
      mapME (spliceOne (convert_match_to_result_document rsW2 capsW5 2) [(8, res8W), (1, res1W)])
        rW5.locations = .ok spliced ∧
      docW5.children = conv ++ spliced :=
  c5_splice_order rsW2 capsW5 2 rW5 ⟨"match", "R", none, []⟩ ruleRW [(8, res8W), (1, res1W)] docW5
    rfl rfl rfl rfl rfl rfl rfl

/-- C10 witness: rule `R` exists in the rule set but Capabilities is
empty, and the conversion fails. -/
theorem c10_missing_capability_fails_witness :
    ∃ e, convert_match_to_result_document rsW2 capsW10 3 rW2 = .error e :=
  c10_missing_capability_fails rsW2 capsW10 3 rW2 ⟨"match", "R", none, []⟩ ruleRW
    rfl rfl rfl rfl rfl
theorem buildRuleEntries_lookup (rs : RuleSet) (caps : Capabilities) (fuel : Nat) :
    ∀ (l : List (String × List (Int × Result))) (es : List (String × RuleEntry)),
      buildRuleEntries rs caps fuel l = .ok es →
      ∀ n : String, (alookup es n).isSome = true ↔
        ∃ ms rule, alookup l n = some ms ∧ alookup rs.rules n = some rule ∧
          isSubscopeRule rule = false := by
  intro l
  induction l with
  | nil =>
    intro es h n
    rw [buildRuleEntries] at h
    injection h with h
    subst h
    simp [alookup]
  | cons p rest ih =>
    obtain ⟨rule_name, ms⟩ := p
    intro es h n
    rw [buildRuleEntries] at h
    cases hrule : alookup rs.rules rule_name with
    | none => rw [hrule] at h; cases h
    | some rule =>
      simp only [hrule] at h
      by_cases hsub : isSubscopeRule rule = true
      · rw [if_pos hsub] at h
        have hrest := ih es h n
        by_cases hn : n = rule_name
        · subst hn
          simp only [alookup, if_pos rfl]
          constructor
          · intro hsome
            obtain ⟨ms', rule', _, hr, hsf⟩ := hrest.mp hsome
            rw [hrule] at hr
            injection hr with hr
            subst hr
            rw [hsub] at hsf
            cases hsf
          · rintro ⟨ms', rule', _, hr, hsf⟩
            rw [hrule] at hr
            injection hr with hr
            subst hr
            rw [hsub] at hsf
            cases hsf
        · simpa [alookup, hn] using hrest
      · rw [if_neg hsub] at h
        cases hconv : mapME (fun p =>
            match convert_match_to_result_document rs caps fuel p.2 with
            | .error e => .error e
            | .ok d => .ok (p.1, d)) ms with
        | error e => rw [hconv] at h; cases h
        | ok converted =>
          rw [hconv] at h
          cases hrest : buildRuleEntries rs caps fuel rest with
          | error e => rw [hrest] at h; cases h
          | ok rest' =>
            rw [hrest] at h
            injection h with h
            subst h
            by_cases hn : n = rule_name
            · subst hn
              simp only [alookup, if_pos rfl]
              constructor
              · intro _
                exact ⟨ms, rule, rfl, hrule, by simpa using hsub⟩
              · intro _
                rfl
            · simp only [alookup, if_neg hn]
              exact ih rest' hrest n

theorem buildRuleEntries_entry (rs : RuleSet) (caps : Capabilities) (fuel : Nat) :
    ∀ (l : List (String × List (Int × Result))) (es : List (String × RuleEntry)),
      buildRuleEntries rs caps fuel l = .ok es →
      ∀ (n : String) (entry : RuleEntry), alookup es n = some entry →
        ∃ rule, alookup rs.rules n = some rule ∧
          entry.meta = convert_meta_to_result_document rule.meta ∧
          entry.source = rule.definition := by
  intro l
  induction l with
  | nil =>
    intro es h n entry hentry
    rw [buildRuleEntries] at h
    injection h with h
    subst h
    cases hentry
  | cons p rest ih =>
    obtain ⟨rule_name, ms⟩ := p
    intro es h n entry hentry
    rw [buildRuleEntries] at h
    cases hrule : alookup rs.rules rule_name with
    | none => rw [hrule] at h; cases h
    | some rule =>
      simp only [hrule] at h
      by_cases hsub : isSubscopeRule rule = true
      · rw [if_pos hsub] at h
        exact ih es h n entry hentry
      · rw [if_neg hsub] at h
        cases hconv : mapME (fun p =>
            match convert_match_to_result_document rs caps fuel p.2 with
            | .error e => .error e
            | .ok d => .ok (p.1, d)) ms with
        | error e => rw [hconv] at h; cases h
        | ok converted =>
          rw [hconv] at h
          cases hrest : buildRuleEntries rs caps fuel rest with
          | error e => rw [hrest] at h; cases h
          | ok rest' =>
            rw [hrest] at h
            injection h with h
            subst h
            by_cases hn : n = rule_name
            · subst hn
              rw [alookup, if_pos rfl] at hentry
              injection hentry with hentry
              subst hentry
              exact ⟨rule, hrule, rfl, rfl⟩
            · rw [alookup, if_neg hn] at hentry
              exact ih rest' hrest n entry hentry

/-- C6: a rule name receives an entry in the output document's `rules`
mapping exactly when it appears in Capabilities and its rule is not marked
as a subscope rule; in particular subscope rules never appear at top
level. -/
theorem c6_subscope_rules_excluded (gmeta : List (String × MetaVal)) (rs : RuleSet)
    (caps : Capabilities) (fuel : Nat) (doc : ResultDoc)
    (h : convert_capabilities_to_result_document gmeta rs caps fuel = .ok doc)
    (n : String) :
    (alookup doc.rules n).isSome = true ↔
      ∃ ms rule, alookup caps n = some ms ∧ alookup rs.rules n = some rule ∧
        isSubscopeRule rule = false := by
  rw [convert_capabilities_to_result_document] at h
  cases hb : buildRuleEntries rs caps fuel caps with
  | error e => rw [hb] at h; cases h
  | ok entries =>
    rw [hb] at h
    injection h with h
    subst h
    exact buildRuleEntries_lookup rs caps fuel caps entries hb n

/-- C6 witness: in the concrete rule set, the subscope rule `S` gets no
top-level entry although it has captured matches. -/
theorem c6_subscope_rules_excluded_witness :
    (alookup docW6.rules "S").isSome = true ↔
      ∃ ms rule, alookup capsW6 "S" = some ms ∧ alookup rsW6.rules "S" = some rule ∧
        isSubscopeRule rule = false :=
  c6_subscope_rules_excluded gmetaW rsW6 capsW6 2 docW6 (by rfl) "S"
theorem alookup_setMeta_self (m : List (String × MetaVal)) (k : String) (v : MetaVal) :
    alookup (setMeta m k v) k = some v := by
  induction m with
  | nil => simp [setMeta, alookup]
  | cons p rest ih =>
    obtain ⟨k', v'⟩ := p
    by_cases hk : k' = k
    · subst hk; simp [setMeta, alookup]
    · rw [setMeta, if_neg hk, alookup, if_neg (fun hkk => hk hkk.symm)]
      exact ih

theorem alookup_setMeta_other (m : List (String × MetaVal)) (k k' : String) (v : MetaVal)
    (h : k' ≠ k) : alookup (setMeta m k v) k' = alookup m k' := by
  induction m with
  | nil => simp [setMeta, alookup, h]
  | cons p rest ih =>
    obtain ⟨k0, v0⟩ := p
    by_cases hk : k0 = k
    · subst hk
      rw [setMeta, if_pos rfl, alookup, if_neg h, alookup, if_neg (fun hkk => h (hkk.trans rfl))]
    · rw [setMeta, if_neg hk, alookup, alookup]
      by_cases hk' : k' = k0
      · rw [if_pos hk', if_pos hk']
      · rw [if_neg hk', if_neg hk', ih]

/-- C9: metadata normalization installs parsed records under both taxonomy
keys of the rule's meta mapping (an empty record list when the key was
absent), leaves every other key unchanged, and the `meta` value stored in a
rule's output entry is exactly that mutated mapping. -/
theorem c9_meta_rewrite (m gmeta : List (String × MetaVal)) (rs : RuleSet)
    (caps : Capabilities) (fuel : Nat) (doc : ResultDoc) (n : String) (entry : RuleEntry) :
    alookup (convert_meta_to_result_document m) "att&ck"
        = some (.attackRecs ((metaGetStrs m "att&ck").map parse_canonical_attack)) ∧
    alookup (convert_meta_to_result_document m) "mbc"
        = some (.mbcRecs ((metaGetStrs m "mbc").map parse_canonical_mbc)) ∧
    (∀ k, k ≠ "att&ck" → k ≠ "mbc" →
      alookup (convert_meta_to_result_document m) k = alookup m k) ∧
    (convert_capabilities_to_result_document gmeta rs caps fuel = .ok doc →
      alookup doc.rules n = some entry →
      ∃ rule, alookup rs.rules n = some rule ∧
        entry.meta = convert_meta_to_result_document rule.meta ∧
        entry.source = rule.definition) := by
  have hmb : metaGetStrs
      (setMeta m "att&ck" (.attackRecs ((metaGetStrs m "att&ck").map parse_canonical_attack)))
      "mbc" = metaGetStrs m "mbc" := by
    unfold metaGetStrs
    rw [alookup_setMeta_other _ _ _ _ (by decide)]
  refine ⟨?_, ?_, ?_, ?_⟩
  · simp only [convert_meta_to_result_document]
    rw [alookup_setMeta_other _ _ _ _ (by decide), alookup_setMeta_self]
  · simp only [convert_meta_to_result_document]
    rw [alookup_setMeta_self, hmb]
  · intro k hka hkm
    simp only [convert_meta_to_result_document]
    rw [alookup_setMeta_other _ _ _ _ hkm, alookup_setMeta_other _ _ _ _ hka]
  · intro h hentry
    rw [convert_capabilities_to_result_document] at h
    cases hb : buildRuleEntries rs caps fuel caps with
    | error e => rw [hb] at h; cases h
    | ok entries =>
      rw [hb] at h
      injection h with h
      subst h
      exact buildRuleEntries_entry rs caps fuel caps entries hb n entry hentry

/-- C9 witness: the concrete rule `N` has its meta rewritten (both taxonomy
keys installed, the `author` key untouched) and the output entry stores
exactly that mapping. -/
theorem c9_meta_rewrite_witness :
    alookup (convert_meta_to_result_document ruleNW.meta) "att&ck"
        = some (.attackRecs ((metaGetStrs ruleNW.meta "att&ck").map parse_canonical_attack)) ∧
    alookup (convert_meta_to_result_document ruleNW.meta) "author" = alookup ruleNW.meta "author" ∧
    ∃ rule, alookup rsW6.rules "N" = some rule ∧
      entryW9.meta = convert_meta_to_result_document rule.meta ∧
      entryW9.source = rule.definition :=
  have h := c9_meta_rewrite ruleNW.meta gmetaW rsW6 capsW6 2 docW6 "N" entryW9
  ⟨h.1, h.2.2.1 "author" (by decide) (by decide), h.2.2.2 (by rfl) (by rfl)⟩
/-- C7: for every taxonomy string, both parsers return the ordered parts
list and the identifier produced by `parse_parts_id`, and bind the three
named fields positionally to the first, second and third part, each
defaulting to the empty string when its position is absent; both parsers
are total functions, so parsing never fails on malformed input. -/
theorem c7_parse_positional (s : String) :
    (parse_canonical_attack s).parts = (parse_parts_id s).1 ∧
    (parse_canonical_attack s).id = (parse_parts_id s).2 ∧
    (parse_canonical_attack s).tactic = (parse_parts_id s).1.getD 0 "" ∧
    (parse_canonical_attack s).technique = (parse_parts_id s).1.getD 1 "" ∧
    (parse_canonical_attack s).subtechnique = (parse_parts_id s).1.getD 2 "" ∧
    (parse_canonical_mbc s).parts = (parse_parts_id s).1 ∧
    (parse_canonical_mbc s).id = (parse_parts_id s).2 ∧
    (parse_canonical_mbc s).objective = (parse_parts_id s).1.getD 0 "" ∧
    (parse_canonical_mbc s).behavior = (parse_parts_id s).1.getD 1 "" ∧
    (parse_canonical_mbc s).method = (parse_parts_id s).1.getD 2 "" := by
  rcases hpi : parse_parts_id s with ⟨l, i⟩
  match l with
  | [] => simp [parse_canonical_attack, parse_canonical_mbc, hpi]
  | [a] => simp [parse_canonical_attack, parse_canonical_mbc, hpi]
  | [a, b] => simp [parse_canonical_attack, parse_canonical_mbc, hpi]
  | a :: b :: c :: t => simp [parse_canonical_attack, parse_canonical_mbc, hpi]
theorem encodeJList_error_mem {xs : List JVal} {e : String}
    (h : encodeJList xs = .error e) : ∃ x ∈ xs, capaJsonEncode x = .error e := by
  induction xs with
  | nil => rw [encodeJList] at h; cases h
  | cons x rest ih =>
    rw [encodeJList] at h
    cases hx : capaJsonEncode x with
    | error e' =>
      rw [hx] at h
      injection h with h
      subst h
      exact ⟨x, List.mem_cons_self _ _, hx⟩
    | ok s =>
      rw [hx] at h
      cases hr : encodeJList rest with
      | error e' =>
        rw [hr] at h
        injection h with h
        subst h
        obtain ⟨y, hy, hye⟩ := ih hr
        exact ⟨y, List.mem_cons_of_mem _ hy, hye⟩
      | ok ss => rw [hr] at h; cases h

theorem encodeJKVs_error_mem {ps : List (String × JVal)} {e : String}
    (h : encodeJKVs ps = .error e) : ∃ p ∈ ps, capaJsonEncode p.2 = .error e := by
  induction ps with
  | nil => rw [encodeJKVs] at h; cases h
  | cons p rest ih =>
    obtain ⟨k, v⟩ := p
    rw [encodeJKVs] at h
    cases hv : capaJsonEncode v with
    | error e' =>
      rw [hv] at h
      injection h with h
      subst h
      exact ⟨(k, v), List.mem_cons_self _ _, hv⟩
    | ok s =>
      rw [hv] at h
      cases hr : encodeJKVs rest with
      | error e' =>
        rw [hr] at h
        injection h with h
        subst h
        obtain ⟨q, hq, hqe⟩ := ih hr
        exact ⟨q, List.mem_cons_of_mem _ hq, hqe⟩
      | ok ss => rw [hr] at h; cases h

theorem encodeJKVs_ok_mem {ps : List (String × JVal)} {qs : List (String × String)}
    (h : encodeJKVs ps = .ok qs) : ∀ p ∈ ps, ∃ s, capaJsonEncode p.2 = .ok s := by
  induction ps generalizing qs with
  | nil => intro p hp; cases hp
  | cons p rest ih =>
    obtain ⟨k, v⟩ := p
    rw [encodeJKVs] at h
    cases hv : capaJsonEncode v with
    | error e => rw [hv] at h; cases h
    | ok s =>
      rw [hv] at h
      cases hr : encodeJKVs rest with
      | error e => rw [hr] at h; cases h
      | ok ss =>
        intro q hq
        cases hq with
        | head => exact ⟨s, hv⟩
        | tail _ hmem => exact ih hr q hmem

theorem encodeJKVs_ok_map {ps : List (String × JVal)}
    (h : ∀ p ∈ ps, ∃ s, capaJsonEncode p.2 = .ok s) :
    encodeJKVs ps = .ok (ps.map (fun p => (p.1, getOk (capaJsonEncode p.2)))) := by
  induction ps with
  | nil => rfl
  | cons p rest ih =>
    obtain ⟨k, v⟩ := p
    obtain ⟨s, hs⟩ := h (k, v) (List.mem_cons_self _ _)
    rw [encodeJKVs, hs, ih (fun q hq => h q (List.mem_cons_of_mem _ hq))]
    simp [getOk, hs]

theorem JEquivKV_keys : ∀ {ps qs : List (String × JVal)}, JEquivKV ps qs →
    ps.map Prod.fst = qs.map Prod.fst := by
  intro ps
  induction ps with
  | nil => intro qs h; cases h; rfl
  | cons p rest ih =>
    intro qs h
    cases h with
    | cons k hv h' => simp only [List.map_cons]; rw [ih h']
theorem sortLin_eq_of_perm {α : Type} [LinearOrder α] {xs ys : List α} (h : xs.Perm ys) :
    List.insertionSort (fun a b => a ≤ b) xs = List.insertionSort (fun a b => a ≤ b) ys := by
  haveI : IsTotal α (fun a b => a ≤ b) := ⟨le_total⟩
  haveI : IsTrans α (fun a b => a ≤ b) := ⟨fun a b c => le_trans⟩
  haveI : IsAntisymm α (fun a b => a ≤ b) := ⟨fun a b => le_antisymm⟩
  exact List.eq_of_perm_of_sorted
    ((List.perm_insertionSort _ xs).trans (h.trans (List.perm_insertionSort _ ys).symm))
    (List.sorted_insertionSort _ xs) (List.sorted_insertionSort _ ys)

theorem sorted_lt_of_sorted_le_nodup {l : List (String × String)}
    (hs : l.Sorted (fun a b => a.1 ≤ b.1)) (hnd : (l.map Prod.fst).Nodup) :
    l.Sorted (fun a b => a.1 < b.1) := by
  have hne : l.Pairwise (fun a b => a.1 ≠ b.1) := List.pairwise_map.mp hnd
  exact (hs.and hne).imp (fun h => lt_of_le_of_ne h.1 h.2)

theorem sortKV_eq_of_perm (ps qs : List (String × String)) (hperm : ps.Perm qs)
    (hnd : (ps.map Prod.fst).Nodup) : sortKV ps = sortKV qs := by
  haveI : IsTotal (String × String) (fun a b => a.1 ≤ b.1) := ⟨fun a b => le_total a.1 b.1⟩
  haveI : IsTrans (String × String) (fun a b => a.1 ≤ b.1) :=
    ⟨fun a b c hab hbc => le_trans hab hbc⟩
  haveI : IsAntisymm (String × String) (fun a b => a.1 < b.1) :=
    ⟨fun a b hab hba => absurd (lt_trans hab hba) (lt_irrefl _)⟩
  have hqnd : (qs.map Prod.fst).Nodup := ((hperm.map Prod.fst).nodup_iff).mp hnd
  have hp : (sortKV ps).Perm (sortKV qs) :=
    (List.perm_insertionSort _ ps).trans (hperm.trans (List.perm_insertionSort _ qs).symm)
  have hnd1 : ((sortKV ps).map Prod.fst).Nodup :=
    (((List.perm_insertionSort (fun a b : String × String => a.1 ≤ b.1) ps).map
      Prod.fst).nodup_iff).mpr hnd
  have hnd2 : ((sortKV qs).map Prod.fst).Nodup :=
    (((List.perm_insertionSort (fun a b : String × String => a.1 ≤ b.1) qs).map
      Prod.fst).nodup_iff).mpr hqnd
  exact List.eq_of_perm_of_sorted hp
    (sorted_lt_of_sorted_le_nodup (List.sorted_insertionSort _ ps) hnd1)
    (sorted_lt_of_sorted_le_nodup (List.sorted_insertionSort _ qs) hnd2)

theorem sizeOf_mem_jarr {xs : List JVal} {x : JVal} (hx : x ∈ xs) :
    sizeOf x < sizeOf (JVal.jarr xs) := by
  have h := List.sizeOf_lt_of_mem hx
  simp only [JVal.jarr.sizeOf_spec]
  omega

theorem sizeOf_val_jobj {kvs : List (String × JVal)} {p : String × JVal} (hp : p ∈ kvs) :
    sizeOf p.2 < sizeOf (JVal.jobj kvs) := by
  have h1 := List.sizeOf_lt_of_mem hp
  have h2 : sizeOf p.2 < sizeOf p := by
    obtain ⟨k, v⟩ := p
    have h3 : sizeOf ((k, v) : String × JVal) = 1 + sizeOf k + sizeOf v := rfl
    have h4 : sizeOf ((k, v) : String × JVal).2 = sizeOf v := rfl
    omega
  have h5 : sizeOf (JVal.jobj kvs) = 1 + sizeOf kvs := by simp [JVal.jobj.sizeOf_spec]
  omega
theorem capaJsonEncode_error_eq_aux : ∀ (n : Nat) (v : JVal) (e : String), sizeOf v ≤ n →
    capaJsonEncode v = .error e → e = "TypeError" := by
  intro n
  induction n using Nat.strong_induction_on with
  | _ n IH =>
    intro v e hsize h
    match v with
    | .jnull => rw [capaJsonEncode] at h; cases h
    | .jbool b => rw [capaJsonEncode] at h; cases h
    | .jint m => rw [capaJsonEncode] at h; cases h
    | .jstr s => rw [capaJsonEncode] at h; cases h
    | .jiset xs => rw [capaJsonEncode] at h; cases h
    | .jsset xs => rw [capaJsonEncode] at h; cases h
    | .junsupported =>
      rw [capaJsonEncode] at h
      injection h with h
      exact h.symm
    | .jarr xs =>
      rw [capaJsonEncode] at h
      cases hl : encodeJList xs with
      | ok ss => rw [hl] at h; cases h
      | error e' =>
        rw [hl] at h
        injection h with h
        subst h
        obtain ⟨x, hx, hxe⟩ := encodeJList_error_mem hl
        exact IH (sizeOf x) (lt_of_lt_of_le (sizeOf_mem_jarr hx) hsize) x e' le_rfl hxe
    | .jobj kvs =>
      rw [capaJsonEncode] at h
      cases hl : encodeJKVs kvs with
      | ok ss => rw [hl] at h; cases h
      | error e' =>
        rw [hl] at h
        injection h with h
        subst h
        obtain ⟨p, hp, hpe⟩ := encodeJKVs_error_mem hl
        exact IH (sizeOf p.2) (lt_of_lt_of_le (sizeOf_val_jobj hp) hsize) p.2 e' le_rfl hpe

theorem capaJsonEncode_error_eq (v : JVal) (e : String) (h : capaJsonEncode v = .error e) :
    e = "TypeError" :=
  capaJsonEncode_error_eq_aux (sizeOf v) v e le_rfl h
theorem encodeJList_congr : ∀ (xs ys : List JVal),
    (∀ x y, x ∈ xs → JEquiv x y → capaJsonEncode x = capaJsonEncode y) →
    JEquivL xs ys → encodeJList xs = encodeJList ys := by
  intro xs
  induction xs with
  | nil => intro ys _ hL; cases hL; rfl
  | cons x xs' ih =>
    intro ys EH hL
    cases hL with
    | cons hxy hL' =>
      rw [encodeJList, encodeJList,
          EH x _ (List.mem_cons_self _ _) hxy,
          ih _ (fun a b ha hab => EH a b (List.mem_cons_of_mem _ ha) hab) hL']

theorem encodeJKVs_congr : ∀ (ps qs : List (String × JVal)),
    (∀ p y, p ∈ ps → JEquiv p.2 y → capaJsonEncode p.2 = capaJsonEncode y) →
    JEquivKV ps qs → encodeJKVs ps = encodeJKVs qs := by
  intro ps
  induction ps with
  | nil => intro qs _ hL; cases hL; rfl
  | cons p ps' ih =>
    intro qs EH hL
    obtain ⟨k, v⟩ := p
    cases hL with
    | cons _ hvw hL' =>
      have h1 : capaJsonEncode v = capaJsonEncode _ :=
        EH (k, v) _ (List.mem_cons_self _ _) hvw
      rw [encodeJKVs, encodeJKVs, h1,
          ih _ (fun a b ha hab => EH a b (List.mem_cons_of_mem _ ha) hab) hL']

theorem capaJsonEncode_congr_aux : ∀ (n : Nat) (a b : JVal), sizeOf a ≤ n → JEquiv a b →
    capaJsonEncode a = capaJsonEncode b := by
  intro n
  induction n using Nat.strong_induction_on with
  | _ n IH =>
    intro a b hsize h
    cases h with
    | null => rfl
    | bool b => rfl
    | int m => rfl
    | str s => rfl
    | unsupported => rfl
    | iset hperm =>
      rw [capaJsonEncode, capaJsonEncode]
      rw [show sortInts _ = sortInts _ from sortLin_eq_of_perm hperm]
    | sset hperm =>
      rw [capaJsonEncode, capaJsonEncode]
      rw [show sortStrs _ = sortStrs _ from sortLin_eq_of_perm hperm]
    | arr hL =>
      rw [capaJsonEncode, capaJsonEncode]
      rw [encodeJList_congr _ _
        (fun x y hx hxy => IH (sizeOf x) (lt_of_lt_of_le (sizeOf_mem_jarr hx) hsize) x y le_rfl hxy)
        hL]
    | obj hKV hperm hnd =>
      rename_i kvs mid kvs'
      rw [capaJsonEncode, capaJsonEncode]
      have henc1 : encodeJKVs kvs = encodeJKVs mid :=
        encodeJKVs_congr kvs mid
          (fun p y hp hpy =>
            IH (sizeOf p.2) (lt_of_lt_of_le (sizeOf_val_jobj hp) hsize) p.2 y le_rfl hpy)
          hKV
      cases hm : encodeJKVs mid with
      | error e =>
        have he : e = "TypeError" := by
          obtain ⟨p, hp, hpe⟩ := encodeJKVs_error_mem hm
          exact capaJsonEncode_error_eq _ _ hpe
        cases hk' : encodeJKVs kvs' with
        | ok qs =>
          obtain ⟨p, hp, hpe⟩ := encodeJKVs_error_mem hm
          obtain ⟨s, hs⟩ := encodeJKVs_ok_mem hk' p (hperm.subset hp)
          rw [hpe] at hs
          cases hs
        | error e' =>
          have he' : e' = "TypeError" := by
            obtain ⟨q, hq, hqe⟩ := encodeJKVs_error_mem hk'
            exact capaJsonEncode_error_eq _ _ hqe
          rw [henc1, hm, he, he']
      | ok rsm =>
        have hallmid : ∀ p ∈ mid, ∃ s, capaJsonEncode p.2 = .ok s := encodeJKVs_ok_mem hm
        have hallk' : ∀ p ∈ kvs', ∃ s, capaJsonEncode p.2 = .ok s :=
          fun p hp => hallmid p (hperm.symm.subset hp)
        have hmmap := encodeJKVs_ok_map hallmid
        have hkmap := encodeJKVs_ok_map hallk'
        have hrsm : rsm = mid.map (fun p => (p.1, getOk (capaJsonEncode p.2))) := by
          rw [hm] at hmmap
          injection hmmap
        have hkeys : kvs.map Prod.fst = mid.map Prod.fst := JEquivKV_keys hKV
        have hndmid : (mid.map Prod.fst).Nodup := hkeys ▸ hnd
        have hndmap : ((mid.map (fun p => (p.1, getOk (capaJsonEncode p.2)))).map
            Prod.fst).Nodup := by
          have hmm : (mid.map (fun p => (p.1, getOk (capaJsonEncode p.2)))).map Prod.fst
              = mid.map Prod.fst := by
            rw [List.map_map]; rfl
          rw [hmm]
          exact hndmid
        have hsort : sortKV (mid.map (fun p => (p.1, getOk (capaJsonEncode p.2))))
            = sortKV (kvs'.map (fun p => (p.1, getOk (capaJsonEncode p.2)))) :=
          sortKV_eq_of_perm _ _ (hperm.map _) hndmap
        rw [henc1, hm, hkmap, hrsm]
        simp only [hsort]

theorem capaJsonEncode_congr (a b : JVal) (h : JEquiv a b) :
    capaJsonEncode a = capaJsonEncode b :=
  capaJsonEncode_congr_aux (sizeOf a) a b le_rfl h
/-- C8: the JSON encoder (`json.dumps` with `sort_keys=True` and
`CapaJsonObjectEncoder`) is deterministic with respect to the iteration
order of the underlying collections — equivalent documents (equal up to set
enumeration order and object key order, with distinct keys) encode to
byte-identical output, sets being emitted as sorted lists — and encoding a
value outside the supported kinds is a fatal `TypeError` instead of
emitting output. -/
theorem c8_encoder_deterministic (a b : JVal) (xs : List Int) :
    (JEquiv a b → capaJsonEncode a = capaJsonEncode b) ∧
    capaJsonEncode (.jiset xs) = capaJsonEncode (.jiset (sortInts xs)) ∧
    capaJsonEncode .junsupported = .error "TypeError" := by
  refine ⟨capaJsonEncode_congr a b, ?_, rfl⟩
  exact capaJsonEncode_congr _ _ (JEquiv.iset (List.perm_insertionSort _ xs).symm)

/-- C8 witness: the two enumeration orders of the address set containing 1
and 8 encode identically, and the unsupported value raises. -/
theorem c8_encoder_deterministic_witness :
    capaJsonEncode (.jiset [2, 1]) = capaJsonEncode (.jiset [1, 2]) ∧
    capaJsonEncode .junsupported = .error "TypeError" :=
  ⟨(c8_encoder_deterministic (.jiset [2, 1]) (.jiset [1, 2]) []).1
      (JEquiv.iset (List.Perm.swap 1 2 [])),
   (c8_encoder_deterministic .junsupported .junsupported []).2.2⟩
